import Mathlib

/-! Verification of the ATS scoring pipeline of `subscriptionService.ts`.

This file gives a shallow embedding, in Lean 4, of the resume scoring code of
`src/services/subscriptionService.ts` (the `calculateATSScore` family of
functions), and proves or refutes the frozen claims about it.

Modelling conventions:
* JavaScript numbers are modelled as exact rationals (`ℚ`); `NaN` is modelled
  explicitly by `Option ℚ` (`none` = `NaN`) in the places where the source can
  produce it (`calculateExperienceAlignment` and the values derived from it).
* JavaScript strings are Lean `String`s; character-level operations work on
  `String.data` (`List Char`).  `toLowerCase` is modelled on ASCII letters
  (`Char.toLower`), and the `\s` character class of the regexes is modelled by
  `Char.isWhitespace`; the claims only concern ASCII text.
* `Set` insertion-order iteration (`[...new Set(xs)]`) is modelled by
  first-occurrence deduplication (`dedupFirst`).
* The two regex-driven extraction helpers are modelled by explicit scanning
  functions that implement the leftmost-match / greedy-separator / lazy-capture
  semantics of the concrete patterns on the inputs used here (single-line
  texts without pathological backtracking).
-/

namespace ATS

/-! Section: Character-level helpers -/

/-- Model of JavaScript `toLowerCase` on basic latin letters
(the code points the claims exercise); this is exactly `Char.toLower`. -/
def jsToLower (c : Char) : Char := Char.toLower c

/-- The `\w` regex class: ASCII letters, digits, and underscore. -/
def isWordChar (c : Char) : Bool := c.isAlphanum || c = '_'

/-- The `\s` regex class, modelled on the ASCII whitespace characters. -/
def isWsChar (c : Char) : Bool := c.isWhitespace

/-! Section: List-of-characters utilities -/

/-- Fuel-based worker for `wsSplit` (structural recursion on the fuel, so the
kernel can evaluate it on concrete inputs). -/
def wsSplitF : Nat → List Char → List (List Char)
  | 0, _ => []
  | _ + 1, [] => []
  | n + 1, c :: cs =>
    if isWsChar c then wsSplitF n cs
    else (c :: cs.takeWhile (fun d => !isWsChar d)) ::
      wsSplitF n (cs.dropWhile (fun d => !isWsChar d))

/-- Splitting on runs of whitespace, models `str.split(/\s+/)` followed by the
removal of the empty boundary pieces (the callers below remove them anyway:
either through the `length > 2` filter or because the input has no leading or
trailing whitespace). -/
def wsSplit (l : List Char) : List (List Char) := wsSplitF l.length l

/-- Embedding of `parts.join(' ')` / `words.join(' ')`. -/
def joinSp : List (List Char) → List Char
  | [] => []
  | [t] => t
  | t :: t' :: ts => t ++ ' ' :: joinSp (t' :: ts)

/-- JS `String.prototype.trim`. -/
def trimC (l : List Char) : List Char :=
  ((l.dropWhile isWsChar).reverse.dropWhile isWsChar).reverse

/-- Fuel-based worker for `dedupFirst`. -/
def dedupFirstF {α : Type} [DecidableEq α] : Nat → List α → List α
  | 0, _ => []
  | _ + 1, [] => []
  | n + 1, x :: xs => x :: dedupFirstF n (xs.filter (· ≠ x))

/-- First-occurrence deduplication: models `[...new Set(xs)]`. -/
def dedupFirst {α : Type} [DecidableEq α] (l : List α) : List α :=
  dedupFirstF l.length l

/-- Does `hay` start with `needle`? -/
def startsWithC : List Char → List Char → Bool
  | [], _ => true
  | _ :: _, [] => false
  | p :: ps, c :: cs => (p == c) && startsWithC ps cs

/-- JS `hay.includes(needle)` (substring containment). -/
def strIncludesC (hay needle : List Char) : Bool :=
  match hay with
  | [] => needle.isEmpty
  | _ :: t => startsWithC needle hay || strIncludesC t needle

/-- JS `hay.includes(needle)` on strings. -/
def strIncludes (hay needle : String) : Bool := strIncludesC hay.data needle.data

/-- Case-insensitive `startsWith` (used for the `/i` regex flags). -/
def ciStartsWith : List Char → List Char → Bool
  | [], _ => true
  | _ :: _, [] => false
  | p :: ps, c :: cs => (jsToLower p == jsToLower c) && ciStartsWith ps cs

/-! Section: `normalizeText` and `extractKeywords` -/

/-- The stop-word set of `normalizeText`, transcribed in source order
(the source `Set` literal contains a few repeated entries; only membership
matters). -/
def stopWords : List String := [
  "a", "an", "and", "are", "as", "at", "be", "by", "for", "from",
  "has", "he", "in", "is", "it", "its", "of", "on", "that", "the",
  "to", "was", "were", "will", "with", "the", "this", "but", "they",
  "have", "had", "what", "said", "each", "which", "their", "time",
  "if", "up", "out", "many", "then", "them", "these", "so", "some",
  "her", "would", "make", "like", "into", "him", "has", "two", "more",
  "very", "after", "words", "long", "than", "first", "been", "call",
  "who", "oil", "sit", "now", "find", "down", "day", "did", "get",
  "come", "made", "may", "part", "over", "new", "sound", "take", "only",
  "little", "work", "know", "place", "year", "live", "me", "back", "give",
  "most", "very", "after", "thing", "our", "just", "name", "good", "sentence",
  "man", "think", "say", "great", "where", "help", "through", "much", "before",
  "line", "right", "too", "means", "old", "any", "same", "tell", "boy", "follow",
  "came", "want", "show", "also", "around", "form", "three", "small", "set",
  "put", "end", "does", "another", "well", "large", "must", "big", "even",
  "such", "because", "turn", "here", "why", "ask", "went", "men", "read",
  "need", "land", "different", "home", "us", "move", "try", "kind", "hand",
  "picture", "again", "change", "off", "play", "spell", "air", "away", "animal",
  "house", "point", "page", "letter", "mother", "answer", "found", "study", "still",
  "learn", "should", "america", "world", "high", "every", "near", "add", "food",
  "between", "own", "below", "country", "plant", "last", "school", "father", "keep",
  "tree", "never", "start", "city", "earth", "eye", "light", "thought", "head",
  "under", "story", "saw", "left", "don\x27t", "few", "while", "along", "might",
  "close", "something", "seem", "next", "hard", "open", "example", "begin", "life",
  "always", "those", "both", "paper", "together", "got", "group", "often", "run",
  "important", "until", "children", "side", "feet", "car", "mile", "night", "walk",
  "white", "sea", "began", "grow", "took", "river", "four", "carry", "state",
  "once", "book", "hear", "stop", "without", "second", "later", "miss", "idea",
  "enough", "eat", "face", "watch", "far", "indian", "real", "almost", "let",
  "above", "girl", "sometimes", "mountain", "cut", "young", "talk", "soon", "list",
  "song", "leave", "family", "it\x27s"]

/-- The technical-term dictionary of `extractKeywords`, in source order. -/
def techTerms : List String := [
  "javascript", "python", "java", "typescript", "react", "angular", "vue",
  "node", "express", "sql", "mongodb", "postgresql", "mysql", "aws", "azure",
  "docker", "kubernetes", "git", "agile", "scrum", "api", "rest", "graphql",
  "microservices", "devops", "ci", "cd", "linux", "unix", "html", "css",
  "sass", "less", "redux", "mobx", "jest", "testing", "tdd", "bdd"]

def stopWordsC : List (List Char) := stopWords.map String.data

def techTermsC : List (List Char) := techTerms.map String.data

/-- One step of `.replace(/[^\w\s]/g, ' ')`: a character that is neither a
word character nor whitespace becomes a single space. -/
def punctToSpace (c : Char) : Char :=
  if !isWordChar c && !isWsChar c then ' ' else c

/-- The surviving tokens of `normalizeText`:
`text.toLowerCase().replace(/[^\w\s]/g, ' ').split(/\s+/)
  .filter(w => w.length > 2 && !stopWords.has(w))`
(the empty boundary pieces JS `split` can produce are removed by the
`length > 2` filter, so `wsSplit` already omitting them is faithful). -/
def normTokensC (l : List Char) : List (List Char) :=
  (wsSplit ((l.map jsToLower).map punctToSpace)).filter
    (fun w => w.length > 2 && !stopWordsC.contains w)

def normalizeTextC (l : List Char) : List Char := joinSp (normTokensC l)

/-- Embedding of `normalizeText` of `subscriptionService.ts` (lines 1260-1304). -/
def normalizeText (s : String) : String := String.mk (normalizeTextC s.data)

/-- Embedding of `str.split(/\s+/)` as used on outputs of `normalizeText` (and on trimmed
job titles): such strings are either empty — where JS yields `[""]` — or free
of leading/trailing whitespace, where JS yields the whitespace-separated
pieces. -/
def jsSplitWsC (l : List Char) : List (List Char) :=
  if l = [] then [[]] else wsSplit l

/-- Character-level `extractKeywords`: word-frequency over the normalized
text, keeping words that appear at least twice, are technical terms, or are
longer than 5 characters; `Map` insertion order is first-occurrence order and
`[...new Set(·)]` is first-occurrence deduplication. -/
def extractKeywordsC (l : List Char) : List (List Char) :=
  let normalized := normalizeTextC l
  let words := jsSplitWsC normalized
  dedupFirst ((dedupFirst words).filter
    (fun w => words.count w ≥ 2 || techTermsC.contains w || w.length > 5))

/-- Embedding of `extractKeywords` of `subscriptionService.ts` (lines 1310-1339). -/
def extractKeywords (jd : String) : List String :=
  (extractKeywordsC jd.data).map String.mk

/-! Section: `extractSkillsFromJobDescription`

The function matches one of two regex patterns against the job description:

`/(?:required|required skills?|qualifications?|requirements?|skills?)[:\s\n]+(.*?)(?=\n\n|\n(?:experience|education|responsibilities|duties)|$)/is`

`/(?:technical skills?|core competencies?|key skills?)[:\s\n]+(.*?)(?=\n\n|\n(?:experience|education|responsibilities|duties)|$)/is`

We model the regex engine's behaviour on these patterns directly: scan for the
leftmost position where an alternation branch (tried in source order, the
optional `s?` expanded to the longer form first) matches case-insensitively
and is followed by at least one separator character; consume the greedy run of
separators; take the lazy capture up to the earliest lookahead boundary
(blank line, newline followed by a section word, or end of input).  An empty
capture makes `match[1]` falsy, so the loop then falls through to the next
pattern. -/

/-- The `[:\s\n]` separator class (`\n` is already in `\s`). -/
def sepSkillChar (c : Char) : Bool := c = ':' || isWsChar c

/-- Branches of the first skill-header alternation, in regex order. -/
def skillBranches1 : List (List Char) :=
  (["required", "required skills", "required skill", "qualifications",
    "qualification", "requirements", "requirement", "skills", "skill"]
    : List String).map String.data

/-- Branches of the second skill-header alternation, in regex order
(`competencies?` is `competencie` plus an optional `s`). -/
def skillBranches2 : List (List Char) :=
  (["technical skills", "technical skill", "core competencies",
    "core competencie", "key skills", "key skill"] : List String).map String.data

/-- The section words of the lookahead. -/
def sectionWordsC : List (List Char) :=
  (["experience", "education", "responsibilities", "duties"] : List String).map String.data

/-- Try every alternation branch at the current position: the branch must
match case-insensitively and be followed by at least one separator; the
result is the text after the greedy separator run. -/
def tryBranchesAt (branches : List (List Char)) (l : List Char) : Option (List Char) :=
  match branches with
  | [] => none
  | b :: bs =>
    let rest := l.drop b.length
    if ciStartsWith b l &&
        (match rest.head? with | some c => sepSkillChar c | none => false)
    then some (rest.dropWhile sepSkillChar)
    else tryBranchesAt bs l

/-- Leftmost-match scan for a skill header. -/
def scanHeader (branches : List (List Char)) : List Char → Option (List Char)
  | [] => none
  | c :: cs =>
    match tryBranchesAt branches (c :: cs) with
    | some content => some content
    | none => scanHeader branches cs

/-- Does the lookahead `(?=\n\n|\n(?:experience|…)|$)` hold here? -/
def skillBoundary (l : List Char) : Bool :=
  match l with
  | [] => true
  | '\n' :: rest =>
    (match rest with
     | '\n' :: _ => true
     | _ => sectionWordsC.any (fun w => ciStartsWith w rest))
  | _ => false

/-- The lazy capture `(.*?)` up to the earliest lookahead boundary. -/
def lazyCapture : List Char → List Char
  | [] => []
  | c :: cs => if skillBoundary (c :: cs) then [] else c :: lazyCapture cs

/-- Full header match; `none` when there is no match or the capture is empty
(an empty `match[1]` is falsy, so the source falls through). -/
def matchSkillHeader (branches : List (List Char)) (jd : List Char) : Option (List Char) :=
  match scanHeader branches jd with
  | some content =>
    let cap := lazyCapture content
    if cap = [] then none else some cap
  | none => none

/-- The `[,\n•\-\*\|]` split class of the extracted skill text. -/
def skillSep (c : Char) : Bool :=
  c = ',' || c = '\n' || c = '•' || c = '-' || c = '*' || c = '|'

/-- JS `str.split(regex)` on a single-character class: splits at every
occurrence, keeping empty pieces. -/
def splitSeps (isSep : Char → Bool) : List Char → List (List Char)
  | [] => [[]]
  | c :: cs =>
    if isSep c then [] :: splitSeps isSep cs
    else
      match splitSeps isSep cs with
      | [] => [[c]]
      | t :: ts => (c :: t) :: ts

/-- The skills extracted from a matched header capture:
split on separators, trim, keep non-empty pieces shorter than 50. -/
def skillPiecesOf (cap : List Char) : List (List Char) :=
  ((splitSeps skillSep cap).map trimC).filter (fun s => s.length > 0 && s.length < 50)

/-- Embedding of `extractSkillsFromJobDescription` of `subscriptionService.ts`
(lines 1363-1390): pattern skills (first matching pattern only) plus the
technical keywords, lower-cased and deduplicated in insertion order. -/
def extractSkillsFromJobDescription (jd : String) : List String :=
  let fromPatterns : List (List Char) :=
    match matchSkillHeader skillBranches1 jd.data with
    | some cap => skillPiecesOf cap
    | none =>
      match matchSkillHeader skillBranches2 jd.data with
      | some cap => skillPiecesOf cap
      | none => []
  let techs := extractKeywordsC jd.data
  (dedupFirst ((fromPatterns ++ techs).map (fun t => t.map jsToLower))).map String.mk

/-! Section: Resume data model

Only the fields the scoring pipeline reads are modelled (`contact`, the date
fields of an experience entry, etc. are never read by it).  `Option` encodes
a possibly-absent field; JS truthiness of a string field (`undefined` and
`""` are both falsy) is `jsTruthyStr`. -/

structure Experience where
  title : String
  company : String
  bullets : List String
deriving DecidableEq

structure Project where
  name : String
  description : String
  technologies : Option (List String)
  bullets : List String
deriving DecidableEq

structure Education where
  degree : String
  institution : String
  highlights : Option (List String)
deriving DecidableEq

structure ResumeData where
  summary : Option String := none
  skills : Option (List String) := none
  experience : List Experience := []
  projects : List Project := []
  education : List Education := []
deriving DecidableEq

/-- The first argument of `calculateATSScore`
(`resumeData: ResumeData | Record<string, never>`): `empty` models `null`,
`undefined`, and the keyless object `{}` — exactly the inputs caught by
`!resumeData || Object.keys(resumeData).length === 0`. -/
inductive ResumeInput where
  | empty : ResumeInput
  | data : ResumeData → ResumeInput

def jsTruthyStr : Option String → Bool
  | none => false
  | some s => s != ""

/-- Embedding of `arr.join(', ')`. -/
def joinCommaSp : List String → String
  | [] => ""
  | [s] => s
  | s :: s' :: rest => s ++ ", " ++ joinCommaSp (s' :: rest)

/-- Embedding of `arr.join(' ')` on strings. -/
def joinSpStr (l : List String) : String := String.mk (joinSp (l.map String.data))

/-- Embedding of `convertResumeDataToText` (lines 1206-1253). -/
def convertResumeDataToText (d : ResumeData) : String :=
  let parts : List String :=
    (if jsTruthyStr d.summary then [d.summary.getD ""] else [])
    ++ (match d.skills with | some l => [joinCommaSp l] | none => [])
    ++ d.experience.flatMap (fun e => (e.title ++ " at " ++ e.company) :: e.bullets)
    ++ d.projects.flatMap (fun p =>
        p.name :: p.description ::
          ((match p.technologies with | some t => [joinCommaSp t] | none => []) ++ p.bullets))
    ++ d.education.flatMap (fun e =>
        (e.degree ++ " from " ++ e.institution) ::
          (match e.highlights with | some h => h | none => []))
  joinSpStr parts

/-- Embedding of `getResumeSkills` (lines 1395-1418): skills and project technologies,
lower-cased, trimmed, deduplicated. -/
def getResumeSkills (d : ResumeData) : List String :=
  let fromSkills := match d.skills with
    | some l => l.map (fun s => String.mk (trimC (s.data.map jsToLower)))
    | none => []
  let fromProjects := d.projects.flatMap (fun p =>
    match p.technologies with
    | some t => t.map (fun s => String.mk (trimC (s.data.map jsToLower)))
    | none => [])
  dedupFirst (fromSkills ++ fromProjects)

/-! Section: Scoring

JS numbers are exact rationals here; `Option ℚ` adds the `NaN` value
(`none`) that `calculateExperienceAlignment` can produce through the
unguarded division `matchedWords.length / jobTitleWords.length` (a `0/0`,
since `matchedWords` is a filter of `jobTitleWords`).  The `j*` helpers are
the NaN-propagating arithmetic of JS (`NaN` absorbs `+`, `*`, `Math.max`,
`Math.min`, `Math.round`). -/

def jadd : Option ℚ → Option ℚ → Option ℚ
  | some a, some b => some (a + b)
  | _, _ => none

def jmax : Option ℚ → Option ℚ → Option ℚ
  | some a, some b => some (max a b)
  | _, _ => none

/-- Multiplication by a (non-NaN) constant. -/
def jmulC (x : Option ℚ) (q : ℚ) : Option ℚ := x.map (· * q)

/-- Embedding of `Math.round` on a finite value: round half towards positive infinity. -/
def jsRound (q : ℚ) : ℚ := ((q + 1/2).floor : ℤ)

def jroundN : Option ℚ → Option ℚ := Option.map jsRound

/-- Embedding of `Math.min(100, Math.max(0, ·))`, NaN-propagating. -/
def jclamp : Option ℚ → Option ℚ := Option.map (fun q => min 100 (max 0 q))

/-- The match predicate of `calculateSkillMatch`'s `filter` callback: exact
`Set.has` membership, or the fuzzy substring test in either direction. -/
def skillMatchesPred (resumeSkills : List String) (jobSkill : String) : Bool :=
  resumeSkills.contains jobSkill ||
  resumeSkills.any (fun rs => strIncludes rs jobSkill || strIncludes jobSkill rs)

/-- Embedding of `calculateSkillMatch` (lines 1423-1444). -/
def calculateSkillMatch (resumeSkills jobSkills : List String) : ℚ :=
  if jobSkills.length = 0 then 0
  else
    let matchedSkills := jobSkills.filter (skillMatchesPred resumeSkills)
    (matchedSkills.length : ℚ) / (jobSkills.length : ℚ) * 100

/-- Embedding of `findMissingSkills` (lines 1449-1462), with its callback transcribed in
its own early-return shape. -/
def findMissingSkills (resumeSkills jobSkills : List String) : List String :=
  jobSkills.filter (fun jobSkill =>
    if resumeSkills.contains jobSkill then false
    else !resumeSkills.any (fun rs => strIncludes rs jobSkill || strIncludes jobSkill rs))

/-- Embedding of `calculateKeywordOverlap` (lines 1344-1358); the second argument is
unused by the source as well. -/
def calculateKeywordOverlap (normalizedResume _normalizedJobDesc : String)
    (jobKeywords : List String) : ℚ :=
  if jobKeywords.length = 0 then 0
  else
    let resumeWords := (jsSplitWsC normalizedResume.data).map String.mk
    let matched := jobKeywords.filter (fun k => resumeWords.contains k)
    (matched.length : ℚ) / (jobKeywords.length : ℚ) * 100

/-- Embedding of `generateKeywordImprovements` (lines 1530-1537). -/
def generateKeywordImprovements (jobKeywords : List String)
    (normalizedResume : String) : List String :=
  let resumeWords := (jsSplitWsC normalizedResume.data).map String.mk
  (jobKeywords.filter (fun k => !resumeWords.contains k)).take 10

/-! Subsection: Job-title inference (the regexes of `calculateExperienceAlignment`)

`/(?:position|role|title|looking for|seeking)[:\s]+([a-z\s]+?)(?:\.|,|\n|$)/i`
and `/^([a-z\s]+?)(?:\s+(?:engineer|developer|…|junior))/i`, modelled with
the same scanning approach as the skill headers: the lazy capture takes the
shortest non-empty run of `[a-z\s]` characters (case-insensitive) followed by
a terminator (`.`, `,`, newline, or end of input for the first pattern; a
whitespace run followed by a role word for the second). -/

def sepTitleChar (c : Char) : Bool := c = ':' || isWsChar c

def titleClassChar (c : Char) : Bool := c.isAlpha || isWsChar c

def titleTermChar (c : Char) : Bool := c = '.' || c = ',' || c = '\n'

/-- Lazy `([a-z\s]+?)` capture up to a terminator or end of input. -/
def titleCapAux : List Char → Option (List Char)
  | [] => none
  | c :: cs =>
    if titleClassChar c then
      match cs with
      | [] => some [c]
      | d :: _ =>
        if titleTermChar d then some [c]
        else
          match titleCapAux cs with
          | some rest => some (c :: rest)
          | none => none
    else none

def titleBranches : List (List Char) :=
  (["position", "role", "title", "looking for", "seeking"] : List String).map String.data

def tryTitleAt (branches : List (List Char)) (l : List Char) : Option (List Char) :=
  match branches with
  | [] => none
  | b :: bs =>
    let rest := l.drop b.length
    if ciStartsWith b l &&
        (match rest.head? with | some c => sepTitleChar c | none => false)
    then
      match titleCapAux (rest.dropWhile sepTitleChar) with
      | some cap => some cap
      | none => tryTitleAt bs l
    else tryTitleAt bs l

def scanTitle : List Char → Option (List Char)
  | [] => none
  | c :: cs =>
    match tryTitleAt titleBranches (c :: cs) with
    | some cap => some cap
    | none => scanTitle cs

def roleWords : List (List Char) :=
  (["engineer", "developer", "manager", "analyst", "specialist",
    "coordinator", "director", "lead", "senior", "junior"] : List String).map String.data

/-- Test for `\s+(?:engineer|…)` after the second pattern's capture. -/
def p2After (l : List Char) : Bool :=
  match l with
  | c :: _ => isWsChar c && roleWords.any (fun w => ciStartsWith w (l.dropWhile isWsChar))
  | [] => false

/-- Anchored lazy capture of the second title pattern. -/
def p2Aux : List Char → Option (List Char)
  | [] => none
  | c :: cs =>
    if titleClassChar c then
      if p2After cs then some [c]
      else
        match p2Aux cs with
        | some rest => some (c :: rest)
        | none => none
    else none

/-- The inferred job title: first matching pattern's capture, trimmed and
lower-cased; `""` when neither pattern matches. -/
def inferJobTitle (jd : List Char) : String :=
  match scanTitle jd with
  | some cap => String.mk ((trimC cap).map jsToLower)
  | none =>
    match p2Aux jd with
    | some cap => String.mk ((trimC cap).map jsToLower)
    | none => ""

/-- One experience entry's `matchedWords.length / jobTitleWords.length * 100`.
When `jobTitleWords` is empty this is JS `0/0 = NaN` (`matchedWords` is a
filter of `jobTitleWords`, so the numerator is then also zero). -/
def titleRatio (jobTitleWords : List String) (expTitle : String) : Option ℚ :=
  let expT := String.mk (expTitle.data.map jsToLower)
  let matched := jobTitleWords.filter (fun w => strIncludes expT w)
  if jobTitleWords.length = 0 then none
  else some ((matched.length : ℚ) / (jobTitleWords.length : ℚ) * 100)

/-- Embedding of `calculateExperienceAlignment` (lines 1467-1525).  The `!resumeData`
guard of the source is unreachable here because the only caller passes the
non-empty structured resume. -/
def calculateExperienceAlignment (d : ResumeData) (jd : String) : Option ℚ :=
  if d.experience.length = 0 then some 0
  else
    let jobTitle := inferJobTitle jd.data
    let titleMatch : Option ℚ :=
      if jobTitle ≠ "" then
        let jobTitleWords :=
          ((jsSplitWsC jobTitle.data).map String.mk).filter (fun w => w.length > 3)
        d.experience.foldl (fun acc e => jmax acc (titleRatio jobTitleWords e.title)) (some 0)
      else some 0
    let jobKeywords := extractKeywords jd
    let experienceKeywordMatch : ℚ :=
      if jobKeywords.length > 0 then
        let expTexts := String.mk
          ((joinSp ((d.experience.flatMap (fun e => e.title :: e.company :: e.bullets)).map
            String.data)).map jsToLower)
        ((jobKeywords.filter (fun k => strIncludes expTexts k)).length : ℚ)
          / (jobKeywords.length : ℚ) * 100
      else 0
    jadd (jmulC titleMatch (2/5)) (some (experienceKeywordMatch * (3/5)))

/-- The result record of the scoring functions. -/
structure ScoreResult where
  score : Option ℚ
  skillMatch : Option ℚ
  missingSkills : List String
  keywordImprovements : List String
  experienceAlignment : Option ℚ
deriving DecidableEq

/-- The zero result of the empty-resume short-circuit. -/
def zeroScoreResult : ScoreResult :=
  { score := some 0, skillMatch := some 0, missingSkills := [],
    keywordImprovements := [], experienceAlignment := some 0 }

/-- Embedding of `calculateATSScoreRuleBased` (lines 1151-1201). -/
def calculateATSScoreRuleBased (d : ResumeData) (jd : String) : ScoreResult :=
  let resumeText := convertResumeDataToText d
  let normalizedResume := normalizeText resumeText
  let normalizedJobDesc := normalizeText jd
  let jobKeywords := extractKeywords jd
  let keywordOverlap := calculateKeywordOverlap normalizedResume normalizedJobDesc jobKeywords
  let jobSkills := extractSkillsFromJobDescription jd
  let resumeSkills := getResumeSkills d
  let skillMatch := calculateSkillMatch resumeSkills jobSkills
  let missingSkills := findMissingSkills resumeSkills jobSkills
  let experienceAlignment := calculateExperienceAlignment d jd
  let keywordImprovements := generateKeywordImprovements jobKeywords normalizedResume
  let score := jroundN
    (jadd (some (keywordOverlap * (2/5) + skillMatch * (2/5))) (jmulC experienceAlignment (1/5)))
  { score := jclamp score,
    skillMatch := some (jsRound skillMatch),
    missingSkills := missingSkills,
    keywordImprovements := keywordImprovements,
    experienceAlignment := jroundN experienceAlignment }

/-! Subsection: The validated AI analysis (`calculateATSScoreWithAI`, lines 1033-1061)

Only the response-validation step is modelled: the fields are the parsed
JSON analysis after `Number(·)` conversion (`none` = `NaN`), with the
non-string entries of the three lists already gone (the `typeof === 'string'`
filters are the identity on this typed model). -/

structure AIAnalysis where
  score : Option ℚ
  skillMatch : Option ℚ
  experienceAlignment : Option ℚ
  missingSkills : List String
  keywordImprovements : List String
  recommendations : List String

/-- The validation and truncation the AI path applies to a parsed analysis
before returning it. -/
def validateAIAnalysis (a : AIAnalysis) : ScoreResult :=
  let score := min 100 (max 0 (a.score.getD 0))
  let skillMatch := min 100 (max 0 (a.skillMatch.getD 0))
  let experienceAlignment := min 100 (max 0 (a.experienceAlignment.getD 0))
  let missingSkills := a.missingSkills.filter (fun s => (trimC s.data).length > 0)
  let keywordImprovements := a.keywordImprovements
  let topRecs := (a.recommendations.take 5).filter (fun r => !keywordImprovements.contains r)
  { score := some (jsRound score),
    skillMatch := some (jsRound skillMatch),
    missingSkills := missingSkills.take 15,
    keywordImprovements := (keywordImprovements ++ topRecs).take 15,
    experienceAlignment := some (jsRound experienceAlignment) }

/-- Embedding of `calculateATSScore` (lines 872-904), parameterised over the two
strategies so that the short-circuit's independence of both can be stated:
empty resume data short-circuits to the zero result; otherwise the AI
strategy's result is returned, and on any AI error the rule-based result. -/
def calculateATSScoreGen (ai : ResumeData → String → Except String ScoreResult)
    (ruleBased : ResumeData → String → ScoreResult)
    (ri : ResumeInput) (jd : String) : ScoreResult :=
  match ri with
  | .empty => zeroScoreResult
  | .data d =>
    match ai d jd with
    | .ok r => r
    | .error _ => ruleBased d jd

/-- Embedding of `calculateATSScore` with the rule-based fallback of the source. -/
def calculateATSScore (ai : ResumeData → String → Except String ScoreResult)
    (ri : ResumeInput) (jd : String) : ScoreResult :=
  calculateATSScoreGen ai calculateATSScoreRuleBased ri jd

/-! Section: Spec-side definitions and concrete inputs used by the claims -/

/-- The replacement rule exactly as claim C7's sentence states it: every
character that is not a letter, digit, or whitespace becomes a space — in
particular the underscore would be replaced. -/
def claimPunctToSpace (c : Char) : Char :=
  if c.isAlpha || c.isDigit || isWsChar c then c else ' '

/-- The normalization pipeline as claim C7 describes it, with the
letter/digit/whitespace replacement rule. -/
def claimNormalizeText (s : String) : String :=
  String.mk (joinSp ((wsSplit ((s.data.map jsToLower).map claimPunctToSpace)).filter
    (fun w => w.length > 2 && !stopWordsC.contains w)))

/-- The claim's replacement rule amended to also keep the underscore — the
actual `\w` class of the source regex. -/
def claimPunctToSpaceAmended (c : Char) : Char :=
  if c.isAlpha || c.isDigit || c = '_' || isWsChar c then c else ' '

/-- The claim's pipeline with the amended replacement rule. -/
def claimNormalizeTextAmended (s : String) : String :=
  String.mk (joinSp ((wsSplit ((s.data.map jsToLower).map claimPunctToSpaceAmended)).filter
    (fun w => w.length > 2 && !stopWordsC.contains w)))

/-- A one-skill resume. -/
def resumeC1 : ResumeData := { skills := some ["python"] }

/-- An AI strategy that always fails with the missing-API-key
`ConfigurationError` of the source. -/
def aiErrC1 : ResumeData → String → Except String ScoreResult :=
  fun _ _ => .error "OPENAI_API_KEY environment variable is not set"

/-- A resume with one experience entry. -/
def resumeC3 : ResumeData :=
  { experience := [{ title := "dev", company := "x", bullets := [] }] }

/-- A job description whose inferred title (`"web dev"`) is non-empty but
contains no word longer than 3 characters. -/
def jobDescC3 : String := "position: web dev."

/-- A minimal non-empty resume matching none of the job skills. -/
def resumeC4 : ResumeData := { summary := some "hello" }

/-- A job description with sixteen extractable required skills (plus the
header words themselves), so that more than 15 skills are missing. -/
def jobDescC4 : String :=
  "Required Skills: alpaa, alpab, alpac, alpad, alpae, alpaf, alpag, alpah, alpai, alpaj, alpak, alpal, alpam, alpan, alpao, alpap"

/-- A parsed AI analysis whose `keywordImprovements` contains a
whitespace-only string (which the source's `typeof`-only filter keeps). -/
def aiAnalysisC4 : AIAnalysis :=
  { score := some 50, skillMatch := some 50, experienceAlignment := some 50,
    missingSkills := [], keywordImprovements := [" "], recommendations := [] }

/-- The resume of claim C6's scenario. -/
def resumeC6 : ResumeData := { skills := some ["Python", "SQL"] }

/-- The job text of claim C6's scenario. -/
def jobDescC6 : String := "Required Skills: Python, SQL, Docker, Kubernetes"

theorem char_toNat_ofNat {n : Nat} (h : n < 0xd800) : (Char.ofNat n).toNat = n := by
  rw [Char.ofNat, dif_pos (Or.inl h : n.isValidChar)]
  rfl

theorem jsToLower_of_not_upper {c : Char} (h : ¬(65 ≤ c.toNat ∧ c.toNat ≤ 90)) :
    jsToLower c = c := by
  rw [jsToLower, Char.toLower, if_neg h]

theorem toNat_jsToLower_of_upper {c : Char} (h : 65 ≤ c.toNat ∧ c.toNat ≤ 90) :
    (jsToLower c).toNat = c.toNat + 32 := by
  rw [jsToLower, Char.toLower]
  simp only [ge_iff_le]
  rw [if_pos h, char_toNat_ofNat (by omega)]

/-- ASCII lower-casing is idempotent. -/
theorem jsToLower_jsToLower (c : Char) : jsToLower (jsToLower c) = jsToLower c := by
  by_cases h : 65 ≤ c.toNat ∧ c.toNat ≤ 90
  · have h2 := toNat_jsToLower_of_upper h
    exact jsToLower_of_not_upper (by omega)
  · rw [jsToLower_of_not_upper h, jsToLower_of_not_upper h]

theorem toNat_eq_of_eq {c d : Char} (h : c = d) : c.toNat = d.toNat := by rw [h]

/-- Lower-casing preserves (non-)whitespace. -/
theorem isWsChar_jsToLower (c : Char) : isWsChar (jsToLower c) = isWsChar c := by
  by_cases h : 65 ≤ c.toNat ∧ c.toNat ≤ 90
  · have h2 := toNat_jsToLower_of_upper h
    have hl : ∀ d : Char, 65 ≤ d.toNat → isWsChar d = false := by
      intro d hd
      rw [isWsChar, Char.isWhitespace]
      have h1 : d ≠ ' ' := fun he => by
        have := toNat_eq_of_eq he
        rw [show (' ' : Char).toNat = 32 from by decide] at this; omega
      have h2 : d ≠ '\t' := fun he => by
        have := toNat_eq_of_eq he
        rw [show ('\t' : Char).toNat = 9 from by decide] at this; omega
      have h3 : d ≠ '\r' := fun he => by
        have := toNat_eq_of_eq he
        rw [show ('\r' : Char).toNat = 13 from by decide] at this; omega
      have h4 : d ≠ '\n' := fun he => by
        have := toNat_eq_of_eq he
        rw [show ('\n' : Char).toNat = 10 from by decide] at this; omega
      simp [h1, h2, h3, h4]
    rw [hl c h.1, hl (jsToLower c) (by omega)]
  · rw [jsToLower_of_not_upper h]

theorem wsSplitF_congr :
    ∀ (n m : Nat) (l : List Char), l.length ≤ n → l.length ≤ m →
      wsSplitF n l = wsSplitF m l
  | 0, 0, _, _, _ => rfl
  | 0, _ + 1, [], _, _ => rfl
  | _ + 1, 0, [], _, _ => rfl
  | _ + 1, _ + 1, [], _, _ => rfl
  | 0, _, _ :: _, h, _ => by simp at h
  | _ + 1, 0, _ :: _, _, h => by simp at h
  | n + 1, m + 1, c :: cs, hn, hm => by
    simp only [List.length_cons] at hn hm
    rw [wsSplitF, wsSplitF]
    by_cases hc : isWsChar c
    · rw [if_pos hc, if_pos hc, wsSplitF_congr n m cs (by omega) (by omega)]
    · have hlen := (List.dropWhile_sublist (l := cs) (fun d => !isWsChar d)).length_le
      rw [if_neg hc, if_neg hc,
        wsSplitF_congr n m (cs.dropWhile (fun d => !isWsChar d)) (by omega) (by omega)]

theorem wsSplit_nil : wsSplit [] = [] := rfl

theorem wsSplit_cons (c : Char) (cs : List Char) :
    wsSplit (c :: cs) =
      if isWsChar c then wsSplit cs
      else (c :: cs.takeWhile (fun d => !isWsChar d)) ::
        wsSplit (cs.dropWhile (fun d => !isWsChar d)) := by
  rw [wsSplit, List.length_cons, wsSplitF]
  by_cases hc : isWsChar c
  · rw [if_pos hc, if_pos hc, wsSplit, wsSplitF_congr cs.length cs.length cs le_rfl le_rfl]
  · have hlen := (List.dropWhile_sublist (l := cs) (fun d => !isWsChar d)).length_le
    rw [if_neg hc, if_neg hc, wsSplit,
      wsSplitF_congr cs.length (cs.dropWhile (fun d => !isWsChar d)).length _ hlen le_rfl]

theorem dedupFirstF_congr {α : Type} [DecidableEq α] :
    ∀ (n m : Nat) (l : List α), l.length ≤ n → l.length ≤ m →
      dedupFirstF n l = dedupFirstF m l
  | 0, 0, _, _, _ => rfl
  | 0, _ + 1, [], _, _ => rfl
  | _ + 1, 0, [], _, _ => rfl
  | _ + 1, _ + 1, [], _, _ => rfl
  | 0, _, _ :: _, h, _ => by simp at h
  | _ + 1, 0, _ :: _, _, h => by simp at h
  | n + 1, m + 1, x :: xs, hn, hm => by
    simp only [List.length_cons] at hn hm
    have hlen := List.length_filter_le (· ≠ x) xs
    rw [dedupFirstF, dedupFirstF,
      dedupFirstF_congr n m (xs.filter (· ≠ x)) (by omega) (by omega)]

theorem dedupFirst_nil {α : Type} [DecidableEq α] : dedupFirst ([] : List α) = [] := rfl

theorem dedupFirst_cons {α : Type} [DecidableEq α] (x : α) (xs : List α) :
    dedupFirst (x :: xs) = x :: dedupFirst (xs.filter (· ≠ x)) := by
  have hlen := List.length_filter_le (· ≠ x) xs
  rw [dedupFirst, List.length_cons, dedupFirstF, dedupFirst,
    dedupFirstF_congr xs.length (xs.filter (· ≠ x)).length _ hlen le_rfl]

/-! Subsection: Lemmas about the utilities -/

theorem takeWhile_all {p : Char → Bool} :
    ∀ {l : List Char}, (∀ c ∈ l, p c = true) → l.takeWhile p = l
  | [], _ => rfl
  | c :: cs, h => by
    rw [List.takeWhile_cons, if_pos (h c (.head _))]
    rw [takeWhile_all (fun d hd => h d (.tail _ hd))]

theorem dropWhile_all {p : Char → Bool} :
    ∀ {l : List Char}, (∀ c ∈ l, p c = true) → l.dropWhile p = []
  | [], _ => rfl
  | c :: cs, h => by
    rw [List.dropWhile_cons, if_pos (h c (.head _))]
    exact dropWhile_all (fun d hd => h d (.tail _ hd))

theorem takeWhile_append_all {p : Char → Bool} :
    ∀ {t r : List Char}, (∀ c ∈ t, p c = true) → (t ++ r).takeWhile p = t ++ r.takeWhile p
  | [], r, _ => rfl
  | c :: cs, r, h => by
    rw [List.cons_append, List.takeWhile_cons, if_pos (h c (.head _)),
      takeWhile_append_all (fun d hd => h d (.tail _ hd)), List.cons_append]

theorem dropWhile_append_all {p : Char → Bool} :
    ∀ {t r : List Char}, (∀ c ∈ t, p c = true) → (t ++ r).dropWhile p = r.dropWhile p
  | [], r, _ => rfl
  | c :: cs, r, h => by
    rw [List.cons_append, List.dropWhile_cons, if_pos (h c (.head _))]
    exact dropWhile_append_all (fun d hd => h d (.tail _ hd))

theorem mem_dropWhile_of_neg {p : Char → Bool} :
    ∀ {l : List Char} {c : Char}, c ∈ l → p c = false → c ∈ l.dropWhile p
  | d :: ds, c, h, hc => by
    rw [List.dropWhile_cons]
    by_cases hd : p d = true
    · rw [if_pos hd]
      cases h with
      | head => rw [hd] at hc; cases hc
      | tail _ h => exact mem_dropWhile_of_neg h hc
    · rw [if_neg hd]; exact h

/-- Every piece produced by `wsSplit` is non-empty, whitespace-free, and made
of characters of the input. -/
theorem wsSplit_props :
    ∀ {l : List Char} {t : List Char}, t ∈ wsSplit l →
      t ≠ [] ∧ ∀ c ∈ t, isWsChar c = false ∧ c ∈ l
  | [], t, h => by simp [wsSplit_nil] at h
  | c :: cs, t, h => by
    rw [wsSplit_cons] at h
    by_cases hc : isWsChar c
    · rw [if_pos hc] at h
      obtain ⟨h1, h2⟩ := wsSplit_props h
      exact ⟨h1, fun d hd => ⟨(h2 d hd).1, .tail _ (h2 d hd).2⟩⟩
    · rw [if_neg hc] at h
      cases h with
      | head =>
        refine ⟨by simp, ?_⟩
        intro d hd
        cases hd with
        | head => exact ⟨Bool.eq_false_iff.mpr hc, .head _⟩
        | tail _ hd =>
          have hmem := List.takeWhile_subset (l := cs) (p := fun d => !isWsChar d) hd
          have h2 := List.mem_takeWhile_imp hd
          exact ⟨by simpa using h2, .tail _ hmem⟩
      | tail _ h =>
        obtain ⟨h1, h2⟩ := wsSplit_props h
        refine ⟨h1, fun d hd => ⟨(h2 d hd).1, .tail _ ?_⟩⟩
        exact (List.dropWhile_sublist (fun d => !isWsChar d)).subset (h2 d hd).2
termination_by l => l.length
decreasing_by
  · simp only [List.length_cons]; omega
  · simp only [List.length_cons]
    have := (List.dropWhile_sublist (l := cs) (fun d => !isWsChar d)).length_le
    omega

/-- Splitting on whitespace is a retraction of joining non-empty,
whitespace-free pieces with single spaces. -/
theorem wsSplit_joinSp :
    ∀ {toks : List (List Char)},
      (∀ t ∈ toks, t ≠ [] ∧ ∀ c ∈ t, isWsChar c = false) →
      wsSplit (joinSp toks) = toks
  | [], _ => by rw [joinSp, wsSplit_nil]
  | [t], h => by
    obtain ⟨hne, hws⟩ := h t (.head _)
    obtain ⟨c, cs, rfl⟩ : ∃ c cs, t = c :: cs := by
      cases t with
      | nil => exact absurd rfl hne
      | cons c cs => exact ⟨c, cs, rfl⟩
    rw [joinSp, wsSplit_cons, if_neg (by simp [hws c (.head _)]),
      takeWhile_all (fun d hd => by simp [hws d (.tail _ hd)]),
      dropWhile_all (fun d hd => by simp [hws d (.tail _ hd)]), wsSplit_nil]
  | t :: t' :: ts, h => by
    obtain ⟨hne, hws⟩ := h t (.head _)
    obtain ⟨c, cs, rfl⟩ : ∃ c cs, t = c :: cs := by
      cases t with
      | nil => exact absurd rfl hne
      | cons c cs => exact ⟨c, cs, rfl⟩
    have hcs : ∀ d ∈ cs, (fun d => !isWsChar d) d = true :=
      fun d hd => by simp [hws d (.tail _ hd)]
    rw [joinSp, List.cons_append, wsSplit_cons, if_neg (by simp [hws c (.head _)]),
      takeWhile_append_all hcs, dropWhile_append_all hcs]
    have : (' ' :: joinSp (t' :: ts)).dropWhile (fun d => !isWsChar d)
        = ' ' :: joinSp (t' :: ts) := by
      rw [List.dropWhile_cons, if_neg (by simp [isWsChar])]
    rw [this, List.takeWhile_cons, if_neg (by simp [isWsChar]), List.append_nil,
      wsSplit_cons, if_pos (by simp [isWsChar]),
      wsSplit_joinSp (fun u hu => h u (.tail _ hu))]

/-- Joining a non-empty list of pieces whose head is non-empty is non-empty. -/
theorem joinSp_ne_nil {t : List Char} {ts : List (List Char)} (h : t ≠ []) :
    joinSp (t :: ts) ≠ [] := by
  cases ts with
  | nil => exact h
  | cons t' ts => rw [joinSp]; simp [h]

theorem mem_dedupFirst_aux {α : Type} [DecidableEq α] :
    ∀ (n : Nat) (l : List α), l.length ≤ n → ∀ a : α, (a ∈ dedupFirst l ↔ a ∈ l)
  | _, [], _, a => by rw [dedupFirst_nil]
  | 0, x :: xs, h, a => by simp at h
  | n + 1, x :: xs, h, a => by
    have hlen : (xs.filter (· ≠ x)).length ≤ n := by
      have := List.length_filter_le (· ≠ x) xs
      simp only [List.length_cons] at h
      omega
    have ih := mem_dedupFirst_aux n (xs.filter (· ≠ x)) hlen a
    rw [dedupFirst_cons]
    constructor
    · intro hmem
      cases hmem with
      | head => exact .head _
      | tail _ hmem => exact .tail _ (List.mem_of_mem_filter (ih.mp hmem))
    · intro hmem
      by_cases hax : a = x
      · exact hax ▸ .head _
      · cases hmem with
        | head => exact absurd rfl hax
        | tail _ hmem =>
          exact .tail _ (ih.mpr (List.mem_filter.mpr ⟨hmem, by simpa using hax⟩))

theorem mem_dedupFirst {α : Type} [DecidableEq α] {l : List α} {a : α} :
    a ∈ dedupFirst l ↔ a ∈ l :=
  mem_dedupFirst_aux l.length l le_rfl a

/-- If every character of `l` is whitespace then `trimC l` is empty;
contrapositive: a non-trivial trim contains a non-whitespace character. -/
theorem trimC_ne_nil_iff {l : List Char} :
    trimC l ≠ [] ↔ ∃ c ∈ l, isWsChar c = false := by
  constructor
  · intro h
    by_contra hex
    push_neg at hex
    have hall : ∀ c ∈ l, isWsChar c = true := by
      intro c hc
      have := hex c hc
      simpa using this
    rw [trimC, dropWhile_all hall] at h
    simp at h
  · intro ⟨c, hc, hws⟩
    have h1 : c ∈ l.dropWhile isWsChar := mem_dropWhile_of_neg hc hws
    have h2 : c ∈ (l.dropWhile isWsChar).reverse := List.mem_reverse.mpr h1
    have h3 : c ∈ (l.dropWhile isWsChar).reverse.dropWhile isWsChar :=
      mem_dropWhile_of_neg h2 hws
    intro he
    rw [trimC] at he
    have := List.reverse_eq_nil_iff.mp he
    rw [this] at h3
    cases h3

/-- Lower-casing a string with a non-trivial trim keeps the trim non-trivial. -/
theorem trimC_map_jsToLower_ne_nil {l : List Char} (h : trimC l ≠ []) :
    trimC (l.map jsToLower) ≠ [] := by
  obtain ⟨c, hc, hws⟩ := trimC_ne_nil_iff.mp h
  exact trimC_ne_nil_iff.mpr
    ⟨jsToLower c, List.mem_map_of_mem _ hc, by rw [isWsChar_jsToLower]; exact hws⟩

/-! Section: Support lemmas for the claims -/

theorem data_mk (l : List Char) : (String.mk l).data = l := rfl

theorem length_mk (l : List Char) : (String.mk l).length = l.length := rfl

theorem dropWhile_head_not {p : Char → Bool} :
    ∀ {l : List Char} {c : Char} {cs : List Char}, l.dropWhile p = c :: cs → p c = false
  | [], c, cs, h => by simp at h
  | d :: ds, c, cs, h => by
    rw [List.dropWhile_cons] at h
    by_cases hd : p d = true
    · rw [if_pos hd] at h
      exact dropWhile_head_not h
    · rw [if_neg hd] at h
      cases h
      simpa using hd

/-- A non-empty trim contains a non-whitespace character. -/
theorem trimC_mem_not_ws {l : List Char} (h : trimC l ≠ []) :
    ∃ c ∈ trimC l, isWsChar c = false := by
  rw [trimC] at h ⊢
  obtain ⟨c, cs, hc⟩ : ∃ c cs,
      (l.dropWhile isWsChar).reverse.dropWhile isWsChar = c :: cs := by
    cases he : (l.dropWhile isWsChar).reverse.dropWhile isWsChar with
    | nil => rw [he] at h; simp at h
    | cons c cs => exact ⟨c, cs, rfl⟩
  refine ⟨c, ?_, dropWhile_head_not hc⟩
  rw [hc]
  exact List.mem_reverse.mpr (.head _)

theorem map_id_of_mem {f : Char → Char} {t : List Char} (h : ∀ c ∈ t, f c = c) :
    t.map f = t := by
  rw [List.map_congr_left h]
  exact List.map_id' t

theorem joinSp_map {f : Char → Char} (hf : f ' ' = ' ') :
    ∀ (toks : List (List Char)), (joinSp toks).map f = joinSp (toks.map (·.map f))
  | [] => rfl
  | [t] => rfl
  | t :: t' :: ts => by
    rw [joinSp, List.map_append, List.map_cons, hf, joinSp_map hf (t' :: ts)]
    rfl

/-- The characters of a surviving `normalizeText` token: longer than 2,
not a stop word, non-empty, and every character is non-whitespace, fixed by
lower-casing, and fixed by the punctuation replacement. -/
theorem normTokensC_chars {l : List Char} {w : List Char} (h : w ∈ normTokensC l) :
    w.length > 2 ∧ stopWordsC.contains w = false ∧ w ≠ [] ∧
      ∀ c ∈ w, isWsChar c = false ∧ jsToLower c = c ∧ punctToSpace c = c := by
  rw [normTokensC, List.mem_filter] at h
  obtain ⟨hsplit, hcond⟩ := h
  have hcond' := hcond
  rw [Bool.and_eq_true, decide_eq_true_eq, Bool.not_eq_true'] at hcond'
  obtain ⟨hne, hchars⟩ := wsSplit_props hsplit
  refine ⟨hcond'.1, hcond'.2, hne, ?_⟩
  intro c hc
  obtain ⟨hws, hmem⟩ := hchars c hc
  obtain ⟨e, he_mem, he⟩ := List.mem_map.mp hmem
  obtain ⟨d, hd_mem, hd⟩ := List.mem_map.mp he_mem
  have hec : e = c := by
    by_cases hcnd : (!isWordChar e && !isWsChar e) = true
    · rw [punctToSpace, if_pos hcnd] at he
      rw [← he] at hws
      simp [isWsChar] at hws
    · rw [punctToSpace, if_neg hcnd] at he
      exact he
  refine ⟨hws, ?_, ?_⟩
  · rw [← hec, ← hd, jsToLower_jsToLower]
  · rw [← hec, he, hec]

theorem jsToLower_space : jsToLower ' ' = ' ' := by decide

theorem punctToSpace_space : punctToSpace ' ' = ' ' := by decide

/-- Running the tokenization again over a joined token list returns the same
tokens: every surviving token is already lower-case, replacement-stable,
longer than 2 characters, and outside the stop-word set. -/
theorem normTokensC_joinSp (l : List Char) :
    normTokensC (joinSp (normTokensC l)) = normTokensC l := by
  have hprops := fun t ht => normTokensC_chars (l := l) (w := t) ht
  have hmap1 : (joinSp (normTokensC l)).map jsToLower = joinSp (normTokensC l) := by
    rw [joinSp_map jsToLower_space]
    congr 1
    rw [List.map_congr_left (fun t ht => map_id_of_mem (fun c hc => ((hprops t ht).2.2.2 c hc).2.1))]
    exact List.map_id' _
  have hmap2 : (joinSp (normTokensC l)).map punctToSpace = joinSp (normTokensC l) := by
    rw [joinSp_map punctToSpace_space]
    congr 1
    rw [List.map_congr_left (fun t ht => map_id_of_mem (fun c hc => ((hprops t ht).2.2.2 c hc).2.2))]
    exact List.map_id' _
  rw [normTokensC, hmap1, hmap2,
    wsSplit_joinSp (fun t ht => ⟨(hprops t ht).2.2.1, fun c hc => ((hprops t ht).2.2.2 c hc).1⟩)]
  rw [List.filter_eq_self]
  intro t ht
  obtain ⟨h1, h2, _, _⟩ := hprops t ht
  simp only [h2, Bool.not_false, Bool.and_true, decide_eq_true_eq]
  exact h1

theorem normalizeTextC_idem (l : List Char) :
    normalizeTextC (normalizeTextC l) = normalizeTextC l := by
  rw [normalizeTextC, normalizeTextC, normTokensC_joinSp]

/-- Every extracted keyword is one of the normalization's surviving tokens
(the empty token that JS `split` produces for an empty normalized text never
passes the keyword condition). -/
theorem mem_extractKeywordsC {l : List Char} {w : List Char}
    (h : w ∈ extractKeywordsC l) : w ∈ normTokensC l := by
  simp only [extractKeywordsC] at h
  rw [mem_dedupFirst, List.mem_filter] at h
  obtain ⟨hmem, hcond⟩ := h
  rw [mem_dedupFirst] at hmem
  by_cases hnil : normalizeTextC l = []
  · rw [jsSplitWsC, if_pos hnil] at hmem hcond
    have hw : w = [] := by simpa using hmem
    subst hw
    simp [List.count, techTermsC, techTerms] at hcond
  · rw [jsSplitWsC, if_neg hnil] at hmem
    rw [normalizeTextC] at hmem
    rwa [wsSplit_joinSp (fun t ht =>
      ⟨(normTokensC_chars ht).2.2.1, fun c hc => ((normTokensC_chars ht).2.2.2 c hc).1⟩)] at hmem

/-- Every string returned by `extractKeywords` is a surviving token: it has
at least 3 characters, none of them whitespace. -/
theorem mem_extractKeywords {jd : String} {k : String} (h : k ∈ extractKeywords jd) :
    3 ≤ k.length ∧ k.data ≠ [] ∧ ∀ c ∈ k.data, isWsChar c = false := by
  rw [extractKeywords] at h
  obtain ⟨w, hw, rfl⟩ := List.mem_map.mp h
  obtain ⟨hlen, _, hne, hchars⟩ := normTokensC_chars (mem_extractKeywordsC hw)
  exact ⟨by rw [length_mk]; omega, by rwa [data_mk], fun c hc => (hchars c (by rwa [data_mk] at hc)).1⟩

/-- Every skill returned by `extractSkillsFromJobDescription` is non-empty
and not whitespace-only. -/
theorem mem_extractSkills_trim {jd : String} {s : String}
    (h : s ∈ extractSkillsFromJobDescription jd) :
    s.data ≠ [] ∧ trimC s.data ≠ [] := by
  simp only [extractSkillsFromJobDescription] at h
  obtain ⟨w, hw, rfl⟩ := List.mem_map.mp h
  rw [mem_dedupFirst] at hw
  obtain ⟨t, ht, rfl⟩ := List.mem_map.mp hw
  rw [data_mk]
  have main : t ≠ [] ∧ ∃ c ∈ t, isWsChar c = false := by
    rcases List.mem_append.mp ht with hpat | htech
    · have hpieces : ∀ {cap}, t ∈ skillPiecesOf cap → t ≠ [] ∧ ∃ c ∈ t, isWsChar c = false := by
        intro cap hp
        rw [skillPiecesOf, List.mem_filter] at hp
        obtain ⟨hmem, hcond⟩ := hp
        rw [Bool.and_eq_true, decide_eq_true_eq, decide_eq_true_eq] at hcond
        obtain ⟨p, _, rfl⟩ := List.mem_map.mp hmem
        have hne : trimC p ≠ [] := by
          intro he
          rw [he] at hcond
          simp at hcond
        exact ⟨hne, trimC_mem_not_ws hne⟩
      rcases hm1 : matchSkillHeader skillBranches1 jd.data with _ | cap1
      · rcases hm2 : matchSkillHeader skillBranches2 jd.data with _ | cap2
        · rw [hm1, hm2] at hpat
          simp at hpat
        · rw [hm1, hm2] at hpat
          exact hpieces hpat
      · rw [hm1] at hpat
        exact hpieces hpat
    · obtain ⟨_, _, hne, hchars⟩ := normTokensC_chars (mem_extractKeywordsC htech)
      obtain ⟨c, hc⟩ := List.exists_mem_of_ne_nil t hne
      exact ⟨hne, c, hc, (hchars c hc).1⟩
  obtain ⟨hne, c, hc, hcws⟩ := main
  constructor
  · intro he
    rw [List.map_eq_nil_iff] at he
    exact hne he
  · exact trimC_ne_nil_iff.mpr
      ⟨jsToLower c, List.mem_map_of_mem _ hc, by rw [isWsChar_jsToLower]; exact hcws⟩

theorem ruleBased_missingSkills (d : ResumeData) (jd : String) :
    (calculateATSScoreRuleBased d jd).missingSkills
      = findMissingSkills (getResumeSkills d) (extractSkillsFromJobDescription jd) := rfl

theorem ruleBased_keywordImprovements (d : ResumeData) (jd : String) :
    (calculateATSScoreRuleBased d jd).keywordImprovements
      = generateKeywordImprovements (extractKeywords jd)
          (normalizeText (convertResumeDataToText d)) := rfl

theorem length_filter_partition {α : Type} (p : α → Bool) :
    ∀ l : List α,
      (l.filter p).length + (l.filter (fun a => !p a)).length = l.length
  | [] => rfl
  | x :: xs => by
    have ih := length_filter_partition p xs
    cases hx : p x <;> simp [List.filter_cons, hx, Nat.succ_eq_add_one] <;> omega

/-- The `findMissingSkills` callback is the pointwise negation of the
`calculateSkillMatch` match predicate. -/
theorem findMissingSkills_eq_filter_not (resumeSkills jobSkills : List String) :
    findMissingSkills resumeSkills jobSkills
      = jobSkills.filter (fun s => !skillMatchesPred resumeSkills s) := by
  rw [findMissingSkills]
  apply List.filter_congr
  intro s _
  cases hc : resumeSkills.contains s
  · rw [if_neg Bool.false_ne_true, skillMatchesPred, hc, Bool.false_or]
  · rw [if_pos rfl, skillMatchesPred, hc, Bool.true_or, Bool.not_true]

theorem punctToSpace_eq_claimAmended (c : Char) :
    punctToSpace c = claimPunctToSpaceAmended c := by
  rw [punctToSpace, claimPunctToSpaceAmended, isWordChar, Char.isAlphanum]
  by_cases h1 : c.isAlpha <;> by_cases h2 : c.isDigit <;>
    by_cases h3 : c = '_' <;> by_cases h4 : isWsChar c <;>
    simp [h1, h2, h3, h4]

/-! Section: The claims -/

/-- C1: for every non-empty resume data and every job description, if the AI
scoring strategy fails with any error, `calculateATSScore` returns exactly
the result of the rule-based scorer on the same inputs. -/
theorem C1_ai_failure_falls_back_to_rule_based
    (ai : ResumeData → String → Except String ScoreResult)
    (d : ResumeData) (jd : String) (e : String) (h : ai d jd = .error e) :
    calculateATSScore ai (.data d) jd = calculateATSScoreRuleBased d jd := by
  rw [calculateATSScore, calculateATSScoreGen, h]

/-- Witness for C1: an AI strategy that always raises the missing-API-key
configuration error falls back to the rule-based result on a concrete
resume and job description. -/
theorem C1_witness :
    calculateATSScore aiErrC1 (.data resumeC1) "python developer"
      = calculateATSScoreRuleBased resumeC1 "python developer" :=
  C1_ai_failure_falls_back_to_rule_based aiErrC1 resumeC1 "python developer"
    "OPENAI_API_KEY environment variable is not set" rfl

/-- C2: with empty or absent resume data, `calculateATSScore` returns the
zero result `{score: 0, skillMatch: 0, missingSkills: [],
keywordImprovements: [], experienceAlignment: 0}` for every job description,
without invoking either strategy (the result is the same for every AI and
every rule-based strategy). -/
theorem C2_empty_resume_short_circuit
    (ai : ResumeData → String → Except String ScoreResult)
    (ruleBased : ResumeData → String → ScoreResult) (jd : String) :
    calculateATSScoreGen ai ruleBased .empty jd = zeroScoreResult ∧
    calculateATSScore ai .empty jd = zeroScoreResult :=
  ⟨rfl, rfl⟩

/-- C3 (code bug): on a resume with one experience entry and the job
description `"position: web dev."` — whose inferred job title `"web dev"` is
non-empty but has no word longer than 3 characters — the rule-based scorer's
`experienceAlignment` and `score` are JS `NaN` (modelled `none`), not
integers in [0,100]: the division `matchedWords.length / jobTitleWords.length`
is `0/0`. -/
theorem C3_nan_experience_alignment :
    inferJobTitle jobDescC3.data = "web dev" ∧
    (calculateATSScoreRuleBased resumeC3 jobDescC3).experienceAlignment = none ∧
    (calculateATSScoreRuleBased resumeC3 jobDescC3).score = none := by decide

set_option maxRecDepth 16000 in
/-- Counterexample for C4: the rule-based path never truncates
`missingSkills` (18 entries here, more than 15), and the validated AI
result's `keywordImprovements` can contain a whitespace-only string (the
source filter only checks `typeof === 'string'`). -/
theorem C4_counterexample :
    15 < (calculateATSScoreRuleBased resumeC4 jobDescC4).missingSkills.length ∧
    (validateAIAnalysis aiAnalysisC4).keywordImprovements = [" "] ∧
    trimC (" " : String).data = [] := by decide

/-- C4 as amended: the AI-validated `missingSkills` has at most 15 entries,
none of them empty or whitespace-only, and its `keywordImprovements` at most
15 entries (but those may be whitespace-only); the rule-based
`keywordImprovements` has at most 10 entries; entries of both rule-based
lists are never empty or whitespace-only; the rule-based `missingSkills` is
not truncated. -/
theorem C4_amended_truncation_bounds
    (a : AIAnalysis) (d : ResumeData) (jd : String) :
    (validateAIAnalysis a).missingSkills.length ≤ 15 ∧
    (validateAIAnalysis a).keywordImprovements.length ≤ 15 ∧
    (∀ s ∈ (validateAIAnalysis a).missingSkills, trimC s.data ≠ []) ∧
    (calculateATSScoreRuleBased d jd).keywordImprovements.length ≤ 10 ∧
    (∀ s ∈ (calculateATSScoreRuleBased d jd).missingSkills,
      s.data ≠ [] ∧ trimC s.data ≠ []) ∧
    (∀ s ∈ (calculateATSScoreRuleBased d jd).keywordImprovements,
      s.data ≠ [] ∧ trimC s.data ≠ []) := by
  refine ⟨List.length_take_le _ _, List.length_take_le _ _, ?_, ?_, ?_, ?_⟩
  · intro s hs
    have hs' := List.mem_of_mem_take hs
    rw [List.mem_filter] at hs'
    have := hs'.2
    rw [decide_eq_true_eq] at this
    exact fun he => by rw [he] at this; simp at this
  · rw [ruleBased_keywordImprovements, generateKeywordImprovements]
    exact List.length_take_le _ _
  · intro s hs
    rw [ruleBased_missingSkills, findMissingSkills_eq_filter_not] at hs
    exact mem_extractSkills_trim (List.mem_of_mem_filter hs)
  · intro s hs
    rw [ruleBased_keywordImprovements, generateKeywordImprovements] at hs
    have hs' := List.mem_of_mem_filter (List.mem_of_mem_take hs)
    obtain ⟨_, hne, hchars⟩ := mem_extractKeywords hs'
    refine ⟨hne, ?_⟩
    obtain ⟨c, hc⟩ := List.exists_mem_of_ne_nil _ hne
    exact trimC_ne_nil_iff.mpr ⟨c, hc, hchars c hc⟩

/-- Witness for C4's amended statement at concrete inputs: the AI bound, and
the non-whitespace-only property of a concrete rule-based missing skill. -/
theorem C4_amended_witness :
    (validateAIAnalysis aiAnalysisC4).missingSkills.length ≤ 15 ∧
    ("position" : String) ∈ (calculateATSScoreRuleBased resumeC3 jobDescC3).missingSkills ∧
    trimC ("position" : String).data ≠ [] := by
  obtain ⟨h1, _, _, _, h5, _⟩ :=
    C4_amended_truncation_bounds aiAnalysisC4 resumeC3 jobDescC3
  exact ⟨h1, by decide, (h5 "position" (by decide)).2⟩

/-- C5: when the job description yields no keywords and no extractable
skills, both `calculateSkillMatch` and `calculateKeywordOverlap` return 0
(their divisions are guarded by the empty-list checks). -/
theorem C5_zero_keywords_zero_skills_guard
    (jd : String) (resumeSkills : List String) (nr njd : String)
    (hk : extractKeywords jd = []) (hs : extractSkillsFromJobDescription jd = []) :
    calculateSkillMatch resumeSkills (extractSkillsFromJobDescription jd) = 0 ∧
    calculateKeywordOverlap nr njd (extractKeywords jd) = 0 := by
  rw [hk, hs]
  exact ⟨by rw [calculateSkillMatch]; simp, by rw [calculateKeywordOverlap]; simp⟩

/-- Witness for C5: the empty job description yields no keywords and no
skills, and both scores are 0. -/
theorem C5_witness :
    extractKeywords "" = [] ∧ extractSkillsFromJobDescription "" = [] ∧
    calculateSkillMatch ["python"] (extractSkillsFromJobDescription "") = 0 ∧
    calculateKeywordOverlap "" "" (extractKeywords "") = 0 := by
  have h := C5_zero_keywords_zero_skills_guard "" ["python"] "" "" (by decide) (by decide)
  exact ⟨by decide, by decide, h.1, h.2⟩

/-- Counterexample for C6: on the claimed scenario the computed skill match
is 300/7 ≈ 42.86, not 50.0 — the extractor also returns `"skills: python"`,
`"required"` and `"skills"` as job skills (7 in all, 3 of them matched). -/
theorem C6_counterexample :
    calculateSkillMatch (getResumeSkills resumeC6)
      (extractSkillsFromJobDescription jobDescC6) ≠ 50 ∧
    calculateSkillMatch (getResumeSkills resumeC6)
      (extractSkillsFromJobDescription jobDescC6) = 300 / 7 := by
  have hlen : (extractSkillsFromJobDescription jobDescC6).length = 7 := by decide
  have hfil : ((extractSkillsFromJobDescription jobDescC6).filter
      (skillMatchesPred (getResumeSkills resumeC6))).length = 3 := by decide
  have heq : calculateSkillMatch (getResumeSkills resumeC6)
      (extractSkillsFromJobDescription jobDescC6) = 300 / 7 := by
    simp only [calculateSkillMatch, hfil, hlen]
    norm_num
  exact ⟨by rw [heq]; norm_num, heq⟩

/-- C6 as amended: the missing skills do include `"docker"` and
`"kubernetes"`, but the skill match is 300/7 (3 of the 7 extracted job
skills matched), not 50. -/
theorem C6_amended :
    ("docker" : String) ∈ findMissingSkills (getResumeSkills resumeC6)
      (extractSkillsFromJobDescription jobDescC6) ∧
    ("kubernetes" : String) ∈ findMissingSkills (getResumeSkills resumeC6)
      (extractSkillsFromJobDescription jobDescC6) ∧
    calculateSkillMatch (getResumeSkills resumeC6)
      (extractSkillsFromJobDescription jobDescC6) = 300 / 7 := by
  refine ⟨by decide, by decide, ?_⟩
  have hlen : (extractSkillsFromJobDescription jobDescC6).length = 7 := by decide
  have hfil : ((extractSkillsFromJobDescription jobDescC6).filter
      (skillMatchesPred (getResumeSkills resumeC6))).length = 3 := by decide
  simp only [calculateSkillMatch, hfil, hlen]
  norm_num

/-- Counterexample for C7: `normalizeText` does not replace the underscore
(the `\w` class keeps it), so `"ab_cd"` survives as a single 5-character
token, while the claim's pipeline would split it into two dropped
2-character tokens. -/
theorem C7_counterexample :
    normalizeText "ab_cd" ≠ claimNormalizeText "ab_cd" ∧
    normalizeText "ab_cd" = "ab_cd" ∧ claimNormalizeText "ab_cd" = "" := by decide

/-- C7 as amended: `normalizeText` lowercases, replaces every character that
is not a letter, digit, underscore, or whitespace by a space, splits on
whitespace runs, drops tokens of length ≤ 2 and stop words, and rejoins with
single spaces. -/
theorem C7_amended_normalize_pipeline (s : String) :
    normalizeText s = claimNormalizeTextAmended s := by
  rw [normalizeText, claimNormalizeTextAmended, normalizeTextC, normTokensC,
    List.map_congr_left (fun c _ => punctToSpace_eq_claimAmended c)]

/-- C8: the match predicate of `calculateSkillMatch` and the missing filter
of `findMissingSkills` are exact complements: a required skill is matched
iff it is not missing, matched count plus missing count equals the required
count, and for a non-empty required list the skill match percentage is
`100 * (1 − |missing| / |required|)`. -/
theorem C8_match_missing_complement (resumeSkills jobSkills : List String) :
    (∀ s ∈ jobSkills, skillMatchesPred resumeSkills s = true ↔
      s ∉ findMissingSkills resumeSkills jobSkills) ∧
    (jobSkills.filter (skillMatchesPred resumeSkills)).length
      + (findMissingSkills resumeSkills jobSkills).length = jobSkills.length ∧
    (jobSkills ≠ [] →
      calculateSkillMatch resumeSkills jobSkills
        = 100 * (1 - ((findMissingSkills resumeSkills jobSkills).length : ℚ)
            / (jobSkills.length : ℚ))) := by
  have hpart : (jobSkills.filter (skillMatchesPred resumeSkills)).length
      + (findMissingSkills resumeSkills jobSkills).length = jobSkills.length := by
    rw [findMissingSkills_eq_filter_not]
    exact length_filter_partition _ _
  refine ⟨?_, hpart, ?_⟩
  · intro s hs
    rw [findMissingSkills_eq_filter_not, List.mem_filter]
    constructor
    · intro hp hmem
      rw [hp] at hmem
      simp at hmem
    · intro hmem
      by_contra hp
      exact hmem ⟨hs, by simp [Bool.eq_false_iff.mpr hp]⟩
  · intro hne
    have hlen0 : jobSkills.length ≠ 0 := fun h => hne (List.length_eq_zero.mp h)
    have hlenQ : (jobSkills.length : ℚ) ≠ 0 := by exact_mod_cast hlen0
    have hcast : ((jobSkills.filter (skillMatchesPred resumeSkills)).length : ℚ)
        = (jobSkills.length : ℚ)
          - ((findMissingSkills resumeSkills jobSkills).length : ℚ) := by
      have := congrArg (fun n : ℕ => (n : ℚ)) hpart
      push_cast at this
      linarith
    rw [calculateSkillMatch, if_neg hlen0]
    simp only
    rw [hcast]
    field_simp
    ring

/-- Witness for C8 at concrete lists: `"docker"` is unmatched exactly
because it is missing, and the percentage identity holds with a non-empty
required list. -/
theorem C8_witness :
    (skillMatchesPred ["python"] "docker" = true ↔
      ("docker" : String) ∉ findMissingSkills ["python"] ["python", "docker"]) ∧
    calculateSkillMatch ["python"] ["python", "docker"]
      = 100 * (1 - ((findMissingSkills ["python"] ["python", "docker"]).length : ℚ)
          / ((["python", "docker"] : List String).length : ℚ)) :=
  ⟨(C8_match_missing_complement ["python"] ["python", "docker"]).1 "docker" (by decide),
   (C8_match_missing_complement ["python"] ["python", "docker"]).2.2 (by decide)⟩

/-- C9: every extracted keyword has at least 3 characters — in particular
the dictionary entries `"ci"` and `"cd"` can never be extracted, because
`normalizeText` drops all tokens of length ≤ 2 first. -/
theorem C9_keywords_min_length (jd : String) (k : String)
    (h : k ∈ extractKeywords jd) :
    3 ≤ k.length ∧ k ≠ "ci" ∧ k ≠ "cd" := by
  obtain ⟨hlen, _, _⟩ := mem_extractKeywords h
  refine ⟨hlen, fun he => ?_, fun he => ?_⟩ <;>
    · subst he
      exact absurd hlen (by decide)

/-- Witness for C9: `"docker"` is extracted from `"docker docker"` and the
properties hold for it. -/
theorem C9_witness :
    ("docker" : String) ∈ extractKeywords "docker docker" ∧
    3 ≤ ("docker" : String).length ∧
    ("docker" : String) ≠ "ci" ∧ ("docker" : String) ≠ "cd" := by
  have h := C9_keywords_min_length "docker docker" "docker" (by decide)
  exact ⟨by decide, h.1, h.2.1, h.2.2⟩

/-- C10: `normalizeText` is idempotent — every surviving token is already
lower-case, free of replaced characters, longer than 2 characters, and
outside the stop-word set, so a second pass reproduces the same string. -/
theorem C10_normalizeText_idempotent (s : String) :
    normalizeText (normalizeText s) = normalizeText s := by
  rw [normalizeText, normalizeText, data_mk, normalizeTextC_idem]

end ATS
